import Mathlib

/-!
Formal model of the synctools crate (src/src/mcs.rs, src/src/rwlock.rs,
src/src/lfstack.rs): an MCS queue lock, a writer-preferring readers-writer
spin lock, and an LL/SC based lock-free stack.  Each definition below is a
shallow embedding of the corresponding Rust item; atomic read-modify-write
operations become single events on an explicit state, and the memory-ordering
annotations of the source are transcribed as values of MemOrd.
-/

/-- Memory orderings of core::sync::atomic::Ordering, as named in the source. -/
inductive MemOrd where
  | relaxed
  | acquire
  | release
  | acqRel
  | seqCst
deriving DecidableEq

/-- Number of values of the 64-bit usize type used by RwLock.state. -/
def usizeSize : Nat := 2 ^ 64

/-- Value of usize MAX, the writer-held sentinel of rwlock.rs line 86. -/
def usizeMax : Nat := usizeSize - 1

/-! ## RwLock (src/src/rwlock.rs)

The lock word is the pair of atomics (state, writer_wake_counter).  The ghost
fields readers and writer count the outstanding read guards and record whether
a write guard is outstanding; they are what the specification refers to as
the reader count and the exclusive writer. -/

/-- State of one RwLock together with the ghost guard accounting. -/
structure RwSt where
  state : Nat
  wake : Nat
  readers : Nat
  writer : Bool
deriving DecidableEq

/-- The successful reader compare-exchange of rwlock.rs lines 47-53: with
snapshot s and current value cur, the reader enters only when the snapshot has
lowest bit 0 and the exchange succeeds (cur = s), moving state to cur + 2. -/
def readTryEnter (s cur : Nat) : Option Nat :=
  if s % 2 = 0 then if cur = s then some ((cur + 2) % usizeSize) else none else none

/-- Effect of Drop for RwLockReadGuard (rwlock.rs lines 200-208) on
(state, writer_wake_counter): fetch_sub(2, Release) on state, and
fetch_add(1, Release) on writer_wake_counter exactly when the value of state
prior to the subtraction was 3. -/
def rwReadGuardDrop (s w : Nat) : Nat × Nat :=
  ((s + (usizeSize - 2)) % usizeSize, if s = 3 then w + 1 else w)

/-- Ordering of the fetch_sub in RwLockReadGuard drop (rwlock.rs line 202). -/
def rwReadGuardDropSubOrd : MemOrd := .release

/-- Ordering of the fetch_add in RwLockReadGuard drop (rwlock.rs line 205). -/
def rwReadGuardDropBumpOrd : MemOrd := .release

/-- Effect of Drop for RwLockWriteGuard (rwlock.rs lines 211-218): store 0
into state and bump writer_wake_counter. -/
def rwWriteGuardDrop (_s w : Nat) : Nat × Nat :=
  (0, w + 1)

/-- RwLockReadGuard.unlock (rwlock.rs line 142) has an empty body and consumes
self, so its whole effect is the implicit drop of the guard. -/
def rwReadGuardUnlock (s w : Nat) : Nat × Nat := rwReadGuardDrop s w

/-- RwLockWriteGuard.unlock (rwlock.rs line 160) has an empty body and
consumes self, so its whole effect is the implicit drop of the guard. -/
def rwWriteGuardUnlock (s w : Nat) : Nat × Nat := rwWriteGuardDrop s w

/-- Labels for the atomic events of rwlock.rs that change the lock word. -/
inductive RwLabel where
  | readerAcq
  | writerAcq
  | writerSetBit
  | readRelease
  | writeRelease
deriving DecidableEq

/-- One atomic transition of the RwLock word, one constructor per successful
read-modify-write in the source.  readerAcq is the reader compare-exchange
s to s + 2 (lines 47-53, enabled only on even state); writerAcq is the writer
compare-exchange s to usize MAX from s at most 1 (lines 83-100); writerSetBit
is the writer compare-exchange s to s + 1 (lines 103-113, enabled on even
state at least 2); readRelease and writeRelease are the guard drops, enabled
only when such a guard is outstanding. -/
inductive RwStep : RwLabel → RwSt → RwSt → Prop where
  | readerAcq (st : RwSt) (h : st.state % 2 = 0) :
      RwStep .readerAcq st ⟨(st.state + 2) % usizeSize, st.wake, st.readers + 1, st.writer⟩
  | writerAcq (st : RwSt) (h : st.state ≤ 1) :
      RwStep .writerAcq st ⟨usizeMax, st.wake, st.readers, true⟩
  | writerSetBit (st : RwSt) (h2 : 2 ≤ st.state) (h : st.state % 2 = 0) :
      RwStep .writerSetBit st ⟨(st.state + 1) % usizeSize, st.wake, st.readers, st.writer⟩
  | readRelease (st : RwSt) (h : 0 < st.readers) :
      RwStep .readRelease st
        ⟨(rwReadGuardDrop st.state st.wake).1, (rwReadGuardDrop st.state st.wake).2,
          st.readers - 1, st.writer⟩
  | writeRelease (st : RwSt) (h : st.writer = true) :
      RwStep .writeRelease st ⟨0, st.wake + 1, st.readers, false⟩

/-- The freshly constructed lock (RwLock::new, rwlock.rs lines 26-32). -/
def rwInit : RwSt := ⟨0, 0, 0, false⟩

/-- Reachability of a lock state under any interleaving of the atomic events. -/
inductive RwReach : RwSt → Prop where
  | init : RwReach rwInit
  | step {st st' : RwSt} {l : RwLabel} : RwReach st → RwStep l st st' → RwReach st'

/-- Bound on concurrently outstanding read guards below which the state
encoding cannot alias the writer-held sentinel. -/
def readerBound : Nat := 2 ^ 63 - 1

/-- Reachability along executions in which the number of outstanding read
guards always stays below readerBound. -/
inductive RwReachB : RwSt → Prop where
  | init : RwReachB rwInit
  | step {st st' : RwSt} {l : RwLabel} :
      RwReachB st → RwStep l st st' → st'.readers < readerBound → RwReachB st'

/-- Inductive invariant of the bounded system: a held writer means state is
the sentinel with no outstanding readers; otherwise state encodes the reader
count in its upper bits and the waiting-writer flag in its lowest bit. -/
def RwInv (st : RwSt) : Prop :=
  (st.writer = true → st.state = usizeMax ∧ st.readers = 0) ∧
  (st.writer = false →
    (st.state = 2 * st.readers ∨ st.state = 2 * st.readers + 1) ∧ st.readers < readerBound)

/-- State reached after readerBound reader acquisitions followed by one
writer waiting-bit compare-exchange: the state word equals the sentinel while
no writer holds the lock. -/
def rwBadState : RwSt := ⟨usizeMax, 0, readerBound, false⟩

/-- Concrete state with one outstanding reader, used to instantiate the
invariant theorem. -/
def rwOneReader : RwSt := ⟨2, 0, 1, false⟩

/-! ## MCS lock (src/src/mcs.rs)

The acquire path of MCSLock::lock (lines 50-84) is straight-line code; we
transcribe it as the list of its memory events in program order, keeping the
ordering annotation of each.  The release path (Drop for MCSLockGuard,
lines 100-137) branches and spins, so it is embedded as a small-step machine
on an explicit state. -/

/-- Memory events of MCSLock::lock in program order. initNode records the
field values written by MCSNode::new (lines 32-39); swapLast is the swap on
self.last (line 60); storeLocked is the store to the own locked flag
(lines 66-70); storePrevNext is the store to prev.next (line 74);
spinLoadLocked is the load in the spin loop (line 77); fenceAcq is the
fence (line 82). -/
inductive LockInstr where
  | initNode (next : Option Nat) (locked : Bool)
  | swapLast (ord : MemOrd)
  | storeLocked (v : Bool) (ord : MemOrd)
  | storePrevNext (ord : MemOrd)
  | spinLoadLocked (ord : MemOrd)
  | fenceAcq
deriving DecidableEq

/-- The spin of mcs.rs line 77 runs while locked is true, so true is the
value meaning this waiter still needs to wait. -/
def mcsWaitingValue : Bool := true

/-- Event trace of MCSLock::lock when the swap returns null (lines 50-84
with the branch at line 64 not taken). -/
def mcsLockTraceUncontended : List LockInstr :=
  [.initNode none false, .swapLast .relaxed, .fenceAcq]

/-- Event trace of MCSLock::lock when the swap returns a previous waiter
(lines 50-84 with the branch at line 64 taken). -/
def mcsLockTraceContended : List LockInstr :=
  [.initNode none false, .swapLast .relaxed, .storeLocked true .relaxed,
   .storePrevNext .relaxed, .spinLoadLocked .relaxed, .fenceAcq]

/-- Value held by the locked flag of the caller node at the moment of the
first swap into last, folded from the trace prefix. -/
def lockedAtFirstSwap : List LockInstr → Option Bool → Option Bool
  | [], _ => none
  | .initNode _ b :: rest, _ => lockedAtFirstSwap rest (some b)
  | .storeLocked b _ :: rest, _ => lockedAtFirstSwap rest (some b)
  | .swapLast _ :: _, cur => cur
  | _ :: rest, cur => lockedAtFirstSwap rest cur

/-- Orderings carried by the swaps on last occurring in a trace. -/
def swapOrds (tr : List LockInstr) : List MemOrd :=
  tr.filterMap fun i =>
    match i with
    | .swapLast o => some o
    | _ => none

/-- Whether an instruction stores into the own locked flag. -/
def isStoreLocked : LockInstr → Bool
  | .storeLocked _ _ => true
  | _ => false

/-- Program counter of the release path of Drop for MCSLockGuard
(mcs.rs lines 100-137). -/
inductive DropPc where
  | loadNext
  | casLast
  | spinNext
  | storeNext
  | finished
deriving DecidableEq

/-- State of one release of the MCS lock.  selfAddr is the current address of
the guard's node; next is the node's next pointer; last is the lock's last
pointer compared against by the compare-exchange; signaled records the
successor whose locked flag was stored false, if any. -/
structure DropSt where
  selfAddr : Nat
  next : Option Nat
  last : Option Nat
  pc : DropPc
  signaled : Option Nat
deriving DecidableEq

/-- One step of Drop for MCSLockGuard (mcs.rs lines 100-137): load next
(lines 104-110) and branch; compare-exchange last from the node address to
null (lines 111-119), returning when it succeeds; spin while next is null
(lines 123-131); store false into next.locked (lines 134-135). -/
def dropStep (st : DropSt) : DropSt :=
  match st.pc with
  | .loadNext =>
      if st.next = none then { st with pc := .casLast } else { st with pc := .spinNext }
  | .casLast =>
      if st.last = some st.selfAddr then { st with last := none, pc := .finished }
      else { st with pc := .spinNext }
  | .spinNext =>
      match st.next with
      | none => st
      | some _ => { st with pc := .storeNext }
  | .storeNext =>
      match st.next with
      | none => st
      | some m => { st with signaled := some m, pc := .finished }
  | .finished => st

/-- Ordering of the next load in the drop (mcs.rs line 108). -/
def mcsDropLoadNextOrd : MemOrd := .relaxed

/-- Success ordering of the compare-exchange on last (mcs.rs line 115). -/
def mcsDropCasSuccessOrd : MemOrd := .release

/-- Failure ordering of the compare-exchange on last (mcs.rs line 115). -/
def mcsDropCasFailureOrd : MemOrd := .relaxed

/-- Ordering of the store to next.locked (mcs.rs line 135). -/
def mcsDropStoreLockedOrd : MemOrd := .release

/-- Value stored to next.locked on handoff (mcs.rs line 135): false, the
not-waiting value. -/
def mcsDropStoreLockedVal : Bool := false

/-- MCSLockGuard.unlock (mcs.rs line 97) has an empty body and consumes self,
so its whole effect is the implicit drop of the guard, one step at a time. -/
def mcsGuardUnlockStep (st : DropSt) : DropSt := dropStep st

/-- Release state after MCSLock::lock returned the guard by value: the node
lives inside the guard, so the returned guard holds the node at a new address
(here 1) while last still holds the address published by the swap at
mcs.rs line 60 (here 0), and no successor ever arrives. -/
def movedGuardDrop : DropSt := ⟨1, none, some 0, .loadNext, none⟩

/-- Release state for the same uncontended acquire if the node had not moved:
last still holds the node's own address. -/
def inPlaceGuardDrop : DropSt := ⟨0, none, some 0, .loadNext, none⟩

/-! ## Send and Sync markers (the unsafe impls of the three modules)

A Rust payload type is abstracted by its own Send and Sync properties; the
definitions below compute the markers of each library type exactly as the
impls and the auto-trait rules of the source derive them. -/

/-- Marker properties of a Rust payload type T. -/
structure RustTy where
  send : Bool
  sync : Bool
deriving DecidableEq

/-- unsafe impl Send for MCSLock of any T (mcs.rs line 88), unconditional. -/
def mcsLockSend (_t : RustTy) : Bool := true

/-- unsafe impl Sync for MCSLock of any T (mcs.rs line 87), unconditional. -/
def mcsLockSync (_t : RustTy) : Bool := true

/-- unsafe impl Send for RwLock of any T (rwlock.rs line 172), unconditional. -/
def rwLockSend (_t : RustTy) : Bool := true

/-- unsafe impl Sync for RwLock of any T (rwlock.rs line 171), unconditional. -/
def rwLockSync (_t : RustTy) : Bool := true

/-- unsafe impl Send for LFStack of any T (lfstack.rs line 108), unconditional. -/
def lfStackSend (_t : RustTy) : Bool := true

/-- unsafe impl Sync for LFStack of any T (lfstack.rs line 107), unconditional. -/
def lfStackSync (_t : RustTy) : Bool := true

/-- MCSNode (mcs.rs lines 21-24) holds only an AtomicPtr and an AtomicBool,
both Send for every parameter, so the auto trait makes it Send for every T. -/
def mcsNodeSend (_t : RustTy) : Bool := true

/-- Auto-derived Send of MCSLockGuard (mcs.rs lines 90-93): its fields are a
PinnedNode, Send whenever the node is, and a shared reference to the lock,
Send whenever MCSLock is Sync.  There is no negative marker field. -/
def mcsLockGuardSend (t : RustTy) : Bool := mcsNodeSend t && mcsLockSync t

/-- PhantomData of a raw mut pointer is not Send; both RwLock guards carry
one (rwlock.rs lines 137 and 155). -/
def phantomMutPtrSend : Bool := false

/-- Auto-derived Send of RwLockReadGuard (rwlock.rs lines 135-138). -/
def rwLockReadGuardSend (t : RustTy) : Bool := rwLockSync t && phantomMutPtrSend

/-- Auto-derived Send of RwLockWriteGuard (rwlock.rs lines 153-156). -/
def rwLockWriteGuardSend (t : RustTy) : Bool := rwLockSync t && phantomMutPtrSend

/-- The markers the specification asks for: a container is sendable or
sharable exactly when the payload is. -/
def specCondLockSend (t : RustTy) : Bool := t.send

/-- A payload type that is neither Send nor Sync, such as Rc of u8. -/
def rcU8 : RustTy := ⟨false, false⟩

/-! ## LFStack (src/src/lfstack.rs)

The LL/SC sequences of push (lines 20-39) and pop (lines 41-74) are each one
atomic modification of head; sequentially their net effect is the pointer
manipulation transcribed below over an explicit heap of nodes addressed by
naturals.  Allocation (Box::new / Box::into_raw) is modelled by a fresh
counter; deallocation (Box::from_raw) removes the address from the heap. -/

/-- Node of lfstack.rs lines 4-8: a next pointer and the payload. -/
structure LFNode (T : Type) where
  next : Option Nat
  data : T

/-- StackHead of lfstack.rs lines 10-13 together with the heap holding its
nodes and the allocator's fresh-address counter. -/
structure StackHead (T : Type) where
  heap : Nat → Option (LFNode T)
  head : Option Nat
  fresh : Nat

/-- StackHead::push (lfstack.rs lines 20-39): allocate a node holding v,
link its next to the old head by the LL/SC sequence, and publish its address
as the new head. -/
def StackHead.push {T : Type} (st : StackHead T) (v : T) : StackHead T :=
  { heap := Function.update st.heap st.fresh (some ⟨st.head, v⟩),
    head := some st.fresh,
    fresh := st.fresh + 1 }

/-- StackHead::pop (lfstack.rs lines 41-74): if head is null return None;
otherwise unlink the head node by the LL/SC sequence, move its payload out and
deallocate it.  The outer Option is none only if the head address is not a
live allocation, which never happens for a well-formed stack. -/
def StackHead.pop {T : Type} (st : StackHead T) : Option (Option T × StackHead T) :=
  match st.head with
  | none => some (none, st)
  | some a =>
      (st.heap a).map fun nd =>
        (some nd.data,
          { heap := Function.update st.heap a none, head := nd.next, fresh := st.fresh })

/-- The chain reachable from a head pointer holds exactly the listed values. -/
inductive ChainIs {T : Type} (h : Nat → Option (LFNode T)) : Option Nat → List T → Prop where
  | nil : ChainIs h none []
  | cons {a : Nat} {nd : LFNode T} {l : List T} :
      h a = some nd → ChainIs h nd.next l → ChainIs h (some a) (nd.data :: l)

/-- A stack is well formed when no address at or above the fresh counter is
allocated. -/
def StackHead.WF {T : Type} (st : StackHead T) : Prop :=
  ∀ a : Nat, st.fresh ≤ a → st.heap a = none

/-- The empty stack (StackHead::new, lfstack.rs lines 16-18) over Nat. -/
def lfEmpty : StackHead Nat := ⟨fun _ => none, none, 0⟩

/-! ## Theorems -/

/-- Literal value of usizeSize. -/
lemma usizeSize_lit : usizeSize = 18446744073709551616 := by norm_num [usizeSize]

/-- Literal value of usizeMax. -/
lemma usizeMax_lit : usizeMax = 18446744073709551615 := by
  norm_num [usizeMax, usizeSize]

/-- Literal value of readerBound. -/
lemma readerBound_lit : readerBound = 9223372036854775807 := by norm_num [readerBound]

/-- The inductive invariant holds along every bounded execution. -/
lemma rwReachB_inv {st : RwSt} (h : RwReachB st) : RwInv st := by
  induction h with
  | init =>
      refine ⟨fun hw => ?_, fun _ => ⟨Or.inl rfl, ?_⟩⟩
      · simp [rwInit] at hw
      · rw [show rwInit.readers = 0 from rfl, readerBound_lit]
        omega
  | step hr hs hb ih =>
      rename_i spre spost lab
      obtain ⟨ihW, ihR⟩ := ih
      cases hs with
      | readerAcq _ h =>
          dsimp only at hb
          refine ⟨fun hw => ?_, fun _ => ?_⟩
          · dsimp only at hw
            obtain ⟨hmax, _⟩ := ihW hw
            rw [hmax, usizeMax_lit] at h
            omega
          · dsimp only
            rcases hwr : spre.writer with _ | _
            · obtain ⟨henc, hlt⟩ := ihR hwr
              have hst : spre.state = 2 * spre.readers := by omega
              have hlt2 : 2 * spre.readers + 2 < usizeSize := by
                rw [usizeSize_lit]
                rw [readerBound_lit] at hb
                omega
              refine ⟨Or.inl ?_, hb⟩
              rw [hst, Nat.mod_eq_of_lt (by omega)]
              ring
            · obtain ⟨hmax, _⟩ := ihW hwr
              rw [hmax, usizeMax_lit] at h
              omega
      | writerAcq _ h =>
          refine ⟨fun _ => ⟨rfl, ?_⟩, fun hw => by simp at hw⟩
          rcases hwr : spre.writer with _ | _
          · obtain ⟨henc, hlt⟩ := ihR hwr
            dsimp only
            omega
          · exact (ihW hwr).2
      | writerSetBit _ h2 h =>
          dsimp only at hb
          refine ⟨fun hw => ?_, fun hw => ?_⟩
          · dsimp only at hw
            obtain ⟨hmax, _⟩ := ihW hw
            rw [hmax, usizeMax_lit] at h
            omega
          · dsimp only at hw ⊢
            obtain ⟨henc, hlt⟩ := ihR hw
            have hst : spre.state = 2 * spre.readers := by omega
            have hlt2 : 2 * spre.readers + 1 < usizeSize := by
              rw [usizeSize_lit]
              rw [readerBound_lit] at hlt
              omega
            refine ⟨Or.inr ?_, hlt⟩
            rw [hst, Nat.mod_eq_of_lt (by omega)]
      | readRelease _ h =>
          dsimp only at hb
          refine ⟨fun hw => ?_, fun hw => ?_⟩
          · dsimp only at hw
            obtain ⟨_, hr0⟩ := ihW hw
            omega
          · dsimp only at hw ⊢
            obtain ⟨henc, hlt⟩ := ihR hw
            have hge : 2 ≤ spre.state := by omega
            have hltS : spre.state < usizeSize := by
              rw [usizeSize_lit]
              rw [readerBound_lit] at hlt
              omega
            have hsub : (rwReadGuardDrop spre.state spre.wake).1 = spre.state - 2 := by
              simp only [rwReadGuardDrop]
              rw [usizeSize_lit] at hltS ⊢
              omega
            rw [hsub]
            refine ⟨?_, by omega⟩
            rcases henc with he | he
            · exact Or.inl (by omega)
            · exact Or.inr (by omega)
      | writeRelease _ h =>
          obtain ⟨_, hr0⟩ := ihW h
          refine ⟨fun hw => by simp at hw, fun _ => ?_⟩
          dsimp only
          refine ⟨Or.inl (by omega), ?_⟩
          rw [readerBound_lit]
          omega

/-- All states with an even state word equal to twice the reader count are
reachable in the unbounded system. -/
lemma rwReach_readers (n : Nat) (h : 2 * n < usizeSize) : RwReach ⟨2 * n, 0, n, false⟩ := by
  induction n with
  | zero => exact RwReach.init
  | succ k ih =>
      have hk : 2 * k < usizeSize := by omega
      have hstep := RwStep.readerAcq ⟨2 * k, 0, k, false⟩ (by dsimp only; omega)
      have he : (⟨((⟨2 * k, 0, k, false⟩ : RwSt).state + 2) % usizeSize,
          (⟨2 * k, 0, k, false⟩ : RwSt).wake, (⟨2 * k, 0, k, false⟩ : RwSt).readers + 1,
          (⟨2 * k, 0, k, false⟩ : RwSt).writer⟩ : RwSt) = ⟨2 * (k + 1), 0, k + 1, false⟩ := by
        dsimp only
        rw [Nat.mod_eq_of_lt (by omega)]
        have h2 : 2 * k + 2 = 2 * (k + 1) := by ring
        rw [h2]
      exact RwReach.step (ih hk) (he ▸ hstep)

/-- C5 (amended): along every execution in which the number of concurrently
outstanding read guards stays below readerBound, the state word is always
2 times the reader count, 2 times the reader count plus 1, or the sentinel
usize MAX held by exactly one writer with no readers; readers greater than
zero never coexist with the sentinel; and every transition enabled at the
sentinel leads to state 0. -/
theorem rwlock_state_invariant (st : RwSt) (h : RwReachB st) :
    (st.state = 2 * st.readers ∨ st.state = 2 * st.readers + 1 ∨
      (st.state = usizeMax ∧ st.writer = true ∧ st.readers = 0)) ∧
    (0 < st.readers → st.state ≠ usizeMax) ∧
    (st.state = usizeMax → ∀ (l : RwLabel) (st' : RwSt), RwStep l st st' → st'.state = 0) := by
  obtain ⟨ihW, ihR⟩ := rwReachB_inv h
  rcases hw : st.writer with _ | _
  · obtain ⟨henc, hlt⟩ := ihR hw
    have hne : st.state ≠ usizeMax := by
      rw [usizeMax_lit]
      rw [readerBound_lit] at hlt
      omega
    refine ⟨?_, fun _ => hne, fun hmax => absurd hmax hne⟩
    rcases henc with he | he
    · exact Or.inl he
    · exact Or.inr (Or.inl he)
  · obtain ⟨hmax, hr0⟩ := ihW hw
    refine ⟨Or.inr (Or.inr ⟨hmax, rfl, hr0⟩), fun hr => by omega, fun _ l st' hs => ?_⟩
    cases hs with
    | readerAcq _ hpar =>
        rw [hmax, usizeMax_lit] at hpar
        omega
    | writerAcq _ hle =>
        rw [hmax, usizeMax_lit] at hle
        omega
    | writerSetBit _ h2 hpar =>
        rw [hmax, usizeMax_lit] at hpar
        omega
    | readRelease _ hpos =>
        omega
    | writeRelease _ _ =>
        rfl

/-- One reader-acquire step from the fresh lock yields the one-reader state. -/
lemma rwStep_oneReader : RwStep .readerAcq rwInit rwOneReader := by
  have hstep := RwStep.readerAcq rwInit (by rfl)
  have he : (⟨(rwInit.state + 2) % usizeSize, rwInit.wake, rwInit.readers + 1,
      rwInit.writer⟩ : RwSt) = rwOneReader := by
    rw [rwOneReader]
    rw [show rwInit.state = 0 from rfl, show rwInit.wake = 0 from rfl,
      show rwInit.readers = 0 from rfl, show rwInit.writer = false from rfl]
    rw [usizeSize_lit]
  exact he ▸ hstep

/-- The one-reader state is reachable with the reader count bounded. -/
lemma rwReachB_oneReader : RwReachB rwOneReader :=
  RwReachB.step RwReachB.init rwStep_oneReader
    (by rw [show rwOneReader.readers = 1 from rfl, readerBound_lit]; omega)

/-- C5 witness: the invariant instantiated at the reachable one-reader state. -/
theorem rwlock_state_invariant_witness :
    (rwOneReader.state = 2 * rwOneReader.readers ∨
      rwOneReader.state = 2 * rwOneReader.readers + 1 ∨
      (rwOneReader.state = usizeMax ∧ rwOneReader.writer = true ∧ rwOneReader.readers = 0)) ∧
    (0 < rwOneReader.readers → rwOneReader.state ≠ usizeMax) ∧
    (rwOneReader.state = usizeMax →
      ∀ (l : RwLabel) (st' : RwSt), RwStep l rwOneReader st' → st'.state = 0) :=
  rwlock_state_invariant rwOneReader rwReachB_oneReader

/-- The aliasing state is reachable in the unbounded system. -/
lemma rwReach_bad : RwReach rwBadState := by
  have h1 := rwReach_readers readerBound
    (by rw [readerBound_lit, usizeSize_lit]; omega)
  have hstep := RwStep.writerSetBit ⟨2 * readerBound, 0, readerBound, false⟩
    (by dsimp only; rw [readerBound_lit]; omega)
    (by dsimp only; omega)
  have he : (⟨((⟨2 * readerBound, 0, readerBound, false⟩ : RwSt).state + 1) % usizeSize,
      (⟨2 * readerBound, 0, readerBound, false⟩ : RwSt).wake,
      (⟨2 * readerBound, 0, readerBound, false⟩ : RwSt).readers,
      (⟨2 * readerBound, 0, readerBound, false⟩ : RwSt).writer⟩ : RwSt) = rwBadState := by
    dsimp only
    rw [rwBadState, readerBound_lit, usizeSize_lit, usizeMax_lit]
  exact RwReach.step h1 (he ▸ hstep)

/-- C5 counterexample: after readerBound reader acquisitions and one
waiting-writer compare-exchange, the state word equals the sentinel usize MAX
while the reader count is positive and no writer holds the lock, refuting the
claimed invariant as stated. -/
theorem rwlock_sentinel_alias_counterexample :
    RwReach rwBadState ∧ rwBadState.state = usizeMax ∧ 0 < rwBadState.readers ∧
      rwBadState.writer = false :=
  ⟨rwReach_bad, rfl, by rw [show rwBadState.readers = readerBound from rfl, readerBound_lit]; omega,
    rfl⟩

/-- C6: dropping a read guard subtracts 2 from state (with wraparound as
fetch_sub does), with release ordering, and bumps writer_wake_counter with
release ordering exactly when the prior value of state was 3. -/
theorem rwlock_read_release_spec :
    (∀ s w : Nat, s < usizeSize →
        ((2 ≤ s → (rwReadGuardDrop s w).1 = s - 2) ∧
         ((rwReadGuardDrop s w).2 = w + 1 ↔ s = 3) ∧
         (s ≠ 3 → (rwReadGuardDrop s w).2 = w))) ∧
    rwReadGuardDropSubOrd = MemOrd.release ∧ rwReadGuardDropBumpOrd = MemOrd.release := by
  refine ⟨fun s w hs => ?_, rfl, rfl⟩
  rw [usizeSize_lit] at hs
  refine ⟨fun h2 => ?_, ?_, fun h3 => ?_⟩
  · simp only [rwReadGuardDrop, usizeSize_lit]
    omega
  · simp only [rwReadGuardDrop]
    by_cases h : s = 3
    · simp [h]
    · simp only [if_neg h]
      constructor
      · intro hw
        omega
      · intro hc
        exact absurd hc h
  · simp only [rwReadGuardDrop, if_neg h3]

/-- C6 witness: the release effect evaluated at prior state 3. -/
theorem rwlock_read_release_spec_witness :
    (2 ≤ 3 → (rwReadGuardDrop 3 0).1 = 3 - 2) ∧
    ((rwReadGuardDrop 3 0).2 = 0 + 1 ↔ 3 = 3) ∧
    ((3 : Nat) ≠ 3 → (rwReadGuardDrop 3 0).2 = 0) :=
  rwlock_read_release_spec.1 3 0 (by rw [usizeSize_lit]; omega)

/-- C7: a reader-acquire transition happens only from a state word with
lowest bit 0 and moves it to that value plus 2; at the compare-exchange level,
readTryEnter succeeds only when the current value is even, and always fails
when the current value has lowest bit 1. -/
theorem rwlock_reader_blocked_by_writer_bit :
    (∀ (st st' : RwSt), RwStep .readerAcq st st' →
        st.state % 2 = 0 ∧ st'.state = (st.state + 2) % usizeSize ∧
          st'.readers = st.readers + 1) ∧
    (∀ s cur n : Nat, readTryEnter s cur = some n → cur % 2 = 0 ∧ n = (cur + 2) % usizeSize) ∧
    (∀ s cur : Nat, cur % 2 = 1 → readTryEnter s cur = none) := by
  refine ⟨fun st st' hs => ?_, fun s cur n h => ?_, fun s cur hodd => ?_⟩
  · cases hs with
    | readerAcq _ h => exact ⟨h, rfl, rfl⟩
  · simp only [readTryEnter] at h
    by_cases h1 : s % 2 = 0
    · rw [if_pos h1] at h
      by_cases h2 : cur = s
      · rw [if_pos h2] at h
        have hn : n = (cur + 2) % usizeSize := by
          cases h
          rfl
        subst h2
        exact ⟨h1, hn⟩
      · rw [if_neg h2] at h
        cases h
    · rw [if_neg h1] at h
      cases h
  · simp only [readTryEnter]
    by_cases h1 : s % 2 = 0
    · rw [if_pos h1]
      by_cases h2 : cur = s
      · subst h2
        omega
      · rw [if_neg h2]
    · rw [if_neg h1]

/-- C7 witness: the compare-exchange evaluated at snapshot 0 and current 0. -/
theorem rwlock_reader_blocked_by_writer_bit_witness :
    (0 : Nat) % 2 = 0 ∧ (2 : Nat) = (0 + 2) % usizeSize :=
  rwlock_reader_blocked_by_writer_bit.2.1 0 0 2
    (by rw [readTryEnter, if_pos rfl, if_pos rfl, usizeSize_lit])

/-- C2 counterexample: at the moment the swap publishes the node address into
last, the locked flag still holds false, the not-waiting value, on both paths
of MCSLock::lock, so the node is published to tail in the not-waiting state. -/
theorem mcs_publish_before_waiting_counterexample :
    lockedAtFirstSwap mcsLockTraceContended none = some false ∧
    lockedAtFirstSwap mcsLockTraceUncontended none = some false ∧
    mcsWaitingValue = true ∧
    lockedAtFirstSwap mcsLockTraceContended none ≠ some mcsWaitingValue := by
  decide

/-- C2 (amended): every acquire initializes the node to next null and locked
false (not waiting) and only then exchanges its address into tail; in the
contended path the waiting value is stored into locked after the exchange but
before the node is linked into prev.next, and in the uncontended path the
waiting value is never stored at all. -/
theorem mcs_acquire_event_order :
    mcsLockTraceContended.take 4 = [.initNode none false, .swapLast .relaxed,
      .storeLocked mcsWaitingValue .relaxed, .storePrevNext .relaxed] ∧
    mcsLockTraceUncontended.take 2 = [.initNode none false, .swapLast .relaxed] ∧
    (mcsLockTraceUncontended.all fun i => !isStoreLocked i) = true := by
  decide

/-- C3 counterexample: the only swap on tail in either acquire path carries
Relaxed ordering, not acquire-release. -/
theorem mcs_swap_ordering_counterexample :
    swapOrds mcsLockTraceContended = [MemOrd.relaxed] ∧
    swapOrds mcsLockTraceUncontended = [MemOrd.relaxed] ∧
    MemOrd.relaxed ≠ MemOrd.acqRel := by
  decide

/-- C3 (amended): the acquire operation exchanges the node address into tail
atomically with Relaxed ordering, and an acquire fence is the final event of
lock on both paths before the guard is returned. -/
theorem mcs_swap_relaxed_then_acquire_fence :
    swapOrds mcsLockTraceContended = [MemOrd.relaxed] ∧
    swapOrds mcsLockTraceUncontended = [MemOrd.relaxed] ∧
    mcsLockTraceContended.getLast? = some .fenceAcq ∧
    mcsLockTraceUncontended.getLast? = some .fenceAcq := by
  decide

/-- C8: on guard drop, loading a null next leads to the compare-exchange of
last from the node address to null; success finishes the release with last
cleared and no successor signaled; failure leads to the spin, which holds
while next is null and, once next is non-null, to the store of false into the
successor locked flag; the compare-exchange success ordering and the handoff
store ordering are both release. -/
theorem mcs_release_protocol (a : Nat) (l : Option Nat) (st : DropSt) :
    (dropStep ⟨a, none, l, .loadNext, none⟩ = ⟨a, none, l, .casLast, none⟩) ∧
    (dropStep ⟨a, none, some a, .casLast, none⟩ = ⟨a, none, none, .finished, none⟩) ∧
    (l ≠ some a → dropStep ⟨a, none, l, .casLast, none⟩ = ⟨a, none, l, .spinNext, none⟩) ∧
    (st.pc = .spinNext → st.next = none → dropStep st = st) ∧
    (∀ m : Nat, st.pc = .spinNext → st.next = some m →
        dropStep st = { st with pc := .storeNext }) ∧
    (∀ m : Nat, st.pc = .storeNext → st.next = some m →
        dropStep st = { st with signaled := some m, pc := .finished }) ∧
    mcsDropCasSuccessOrd = MemOrd.release ∧ mcsDropStoreLockedOrd = MemOrd.release ∧
    mcsDropStoreLockedVal = false := by
  refine ⟨?_, ?_, fun hne => ?_, fun hpc hn => ?_, fun m hpc hn => ?_, fun m hpc hn => ?_,
    rfl, rfl, rfl⟩
  · simp [dropStep]
  · simp [dropStep]
  · simp only [dropStep]
    rw [if_neg hne]
  · obtain ⟨sa, nx, la, pc, sg⟩ := st
    dsimp only at hpc hn
    subst hpc
    subst hn
    rfl
  · obtain ⟨sa, nx, la, pc, sg⟩ := st
    dsimp only at hpc hn
    subst hpc
    subst hn
    rfl
  · obtain ⟨sa, nx, la, pc, sg⟩ := st
    dsimp only at hpc hn
    subst hpc
    subst hn
    rfl

/-- C8 witness: the release machine evaluated at concrete states covering the
failed compare-exchange, the spin, and the handoff store. -/
theorem mcs_release_protocol_witness :
    (dropStep ⟨0, none, some 1, .casLast, none⟩ = ⟨0, none, some 1, .spinNext, none⟩) ∧
    (dropStep ⟨0, none, some 1, .spinNext, none⟩ = ⟨0, none, some 1, .spinNext, none⟩) ∧
    (dropStep ⟨0, some 5, some 1, .spinNext, none⟩ =
      { (⟨0, some 5, some 1, .spinNext, none⟩ : DropSt) with pc := .storeNext }) ∧
    (dropStep ⟨0, some 5, some 1, .storeNext, none⟩ =
      { (⟨0, some 5, some 1, .storeNext, none⟩ : DropSt) with
          signaled := some 5, pc := .finished }) :=
  ⟨(mcs_release_protocol 0 (some 1) ⟨0, none, some 1, .spinNext, none⟩).2.2.1 (by decide),
   (mcs_release_protocol 0 (some 1) ⟨0, none, some 1, .spinNext, none⟩).2.2.2.1 rfl rfl,
   (mcs_release_protocol 0 (some 5) ⟨0, some 5, some 1, .spinNext, none⟩).2.2.2.2.1 5 rfl rfl,
   (mcs_release_protocol 0 (some 5) ⟨0, some 5, some 1, .storeNext, none⟩).2.2.2.2.2.1
      5 rfl rfl⟩

/-- Along the release of a moved guard with no successor, the machine keeps
next null, last pointing to the stale address, and never passes the spin. -/
lemma movedGuardDrop_stuck (fuel : Nat) :
    (dropStep^[fuel] movedGuardDrop).next = none ∧
    (dropStep^[fuel] movedGuardDrop).last = some 0 ∧
    (dropStep^[fuel] movedGuardDrop).selfAddr = 1 ∧
    ((dropStep^[fuel] movedGuardDrop).pc = .loadNext ∨
     (dropStep^[fuel] movedGuardDrop).pc = .casLast ∨
     (dropStep^[fuel] movedGuardDrop).pc = .spinNext) := by
  induction fuel with
  | zero => exact ⟨rfl, rfl, rfl, Or.inl rfl⟩
  | succ n ih =>
      rw [Function.iterate_succ_apply']
      obtain ⟨h1, h2, h3, h4⟩ := ih
      rcases hst : dropStep^[n] movedGuardDrop with ⟨sa, nx, la, pc, sg⟩
      rw [hst] at h1 h2 h3 h4
      dsimp only at h1 h2 h3 h4
      subst h1
      subst h2
      subst h3
      rcases h4 with h | h | h <;> subst h <;> simp [dropStep]

/-- C1: MCSLock::lock takes no caller-supplied node; the node lives inside
the returned guard, which is returned by value, so the guard release runs
with the node at a new address while tail still holds the address published
by the swap.  With the node moved from address 0 to address 1 and no
successor, the drop machine never reaches the finished state for any number
of steps, whereas the same release with the unmoved address finishes in two
steps and clears tail. -/
theorem mcs_lock_inner_node_move_bug :
    (∀ fuel : Nat, ((dropStep^[fuel] movedGuardDrop).pc == DropPc.finished) = false) ∧
    (dropStep^[2] inPlaceGuardDrop).pc = DropPc.finished ∧
    (dropStep^[2] inPlaceGuardDrop).last = none := by
  refine ⟨fun fuel => ?_, by decide, by decide⟩
  obtain ⟨_, _, _, h⟩ := movedGuardDrop_stuck fuel
  rcases h with h | h | h <;> rw [h] <;> decide

/-- C10: for each guard type the explicit unlock method consumes the guard
with an empty body, so its whole effect on the lock state is the effect of
Drop, run once. -/
theorem guard_unlock_equals_drop :
    (∀ s w : Nat, rwReadGuardUnlock s w = rwReadGuardDrop s w) ∧
    (∀ s w : Nat, rwWriteGuardUnlock s w = rwWriteGuardDrop s w) ∧
    (∀ st : DropSt, mcsGuardUnlockStep st = dropStep st) :=
  ⟨fun _ _ => rfl, fun _ _ => rfl, fun _ => rfl⟩

/-- C4: the source declares Send and Sync for MCSLock, RwLock and LFStack
unconditionally, so a payload that is neither Send nor Sync still yields
sendable and sharable containers, and the auto trait rules make MCSLockGuard
sendable for every payload; only the RwLock guards are thread-bound, through
their PhantomData field.  This contradicts the conditional markers and the
thread-bound guards that the claim states. -/
theorem send_sync_markers_bug :
    mcsLockSend rcU8 = true ∧ mcsLockSync rcU8 = true ∧
    rwLockSend rcU8 = true ∧ rwLockSync rcU8 = true ∧
    lfStackSend rcU8 = true ∧ lfStackSync rcU8 = true ∧
    rcU8.send = false ∧ rcU8.sync = false ∧
    specCondLockSend rcU8 = false ∧
    mcsLockGuardSend rcU8 = true ∧ mcsLockGuardSend ⟨true, true⟩ = true ∧
    rwLockReadGuardSend ⟨true, true⟩ = false ∧ rwLockWriteGuardSend ⟨true, true⟩ = false := by
  decide

/-- A chain is determined by the heap and the head pointer. -/
lemma chainIs_det {T : Type} {h : Nat → Option (LFNode T)} {p : Option Nat}
    {l1 l2 : List T} (c1 : ChainIs h p l1) (c2 : ChainIs h p l2) : l1 = l2 := by
  induction c1 generalizing l2 with
  | nil =>
      cases c2
      rfl
  | cons ha hc ih =>
      cases c2 with
      | cons ha2 hc2 =>
          rw [ha] at ha2
          injection ha2 with he
          subst he
          rw [ih hc2]

/-- Unlinking the head address preserves every strictly shorter chain of the
same heap: such a chain cannot pass through the head address, or the chain
would be equal to the full one and not shorter. -/
lemma chainIs_update_aux {T : Type} {h : Nat → Option (LFNode T)} {a : Nat}
    {L : List T} (hfull : ChainIs h (some a) L) {q : Option Nat} {m : List T}
    (hm : ChainIs h q m) : m.length < L.length →
    ChainIs (Function.update h a none) q m := by
  induction hm with
  | nil =>
      intro _
      exact ChainIs.nil
  | cons hb hc ih =>
      intro hlen
      rename_i b nd' m'
      by_cases hba : b = a
      · exfalso
        subst hba
        have hde := chainIs_det (ChainIs.cons hb hc) hfull
        rw [← hde] at hlen
        simp at hlen
      · refine ChainIs.cons ?_ (ih ?_)
        · rw [Function.update_apply, if_neg hba]
          exact hb
        · simp only [List.length_cons] at hlen
          omega

/-- C9: sequentially, pop returns exactly None on the empty chain; on a
non-empty chain it returns the most recently pushed value not yet popped and
leaves the rest of the chain; and pop immediately after push v succeeds with
v and restores the previous heap and head. -/
theorem lfstack_push_pop_lifo :
    (∀ (T : Type) (st : StackHead T) (l : List T), ChainIs st.heap st.head l →
        (st.pop = some (none, st) ↔ l = [])) ∧
    (∀ (T : Type) (st : StackHead T) (x : T) (l : List T),
        ChainIs st.heap st.head (x :: l) →
        ∃ st' : StackHead T, st.pop = some (some x, st') ∧ ChainIs st'.heap st'.head l) ∧
    (∀ (T : Type) (st : StackHead T) (v : T), st.WF →
        (st.push v).pop = some (some v, ⟨st.heap, st.head, st.fresh + 1⟩)) := by
  have hpopCons : ∀ (T : Type) (st : StackHead T) (x : T) (l : List T),
      ChainIs st.heap st.head (x :: l) →
      ∃ st' : StackHead T, st.pop = some (some x, st') ∧ ChainIs st'.heap st'.head l := by
    intro T st x l hc
    obtain ⟨hp, hd, fr⟩ := st
    dsimp only at hc ⊢
    cases hc with
    | cons ha hcc =>
        rename_i a nd
        refine ⟨⟨Function.update hp a none, nd.next, fr⟩, ?_, ?_⟩
        · simp only [StackHead.pop, ha]
          rfl
        · dsimp only
          exact chainIs_update_aux (ChainIs.cons ha hcc) hcc (by simp)
  refine ⟨?_, hpopCons, ?_⟩
  · intro T st l hc
    cases hl : st.head with
    | none =>
        rw [hl] at hc
        cases hc
        simp [StackHead.pop, hl]
    | some a =>
        rw [hl] at hc
        cases hc with
        | cons ha hcc =>
            rename_i nd l0
            obtain ⟨st', hpop, _⟩ := hpopCons T st nd.data l0 (by rw [hl]; exact ChainIs.cons ha hcc)
            rw [hpop]
            constructor
            · intro he
              injection he with he2
              injection he2 with he3
              cases he3
            · intro he
              cases he
  · intro T st v hwf
    obtain ⟨hp, hd, fr⟩ := st
    simp only [StackHead.push, StackHead.pop, Function.update_same]
    have hfr : hp fr = none := hwf fr (Nat.le_refl fr)
    have hheap : Function.update (Function.update hp fr (some ⟨hd, v⟩)) fr none = hp := by
      rw [Function.update_idem]
      calc Function.update hp fr none = Function.update hp fr (hp fr) := by rw [hfr]
        _ = hp := Function.update_eq_self fr hp
    rw [hheap]
    rfl

/-- C9 witness: popping the empty stack returns None, and pushing 5 onto the
empty stack then popping returns 5 and restores the empty stack. -/
theorem lfstack_push_pop_lifo_witness :
    (lfEmpty.pop = some (none, lfEmpty) ↔ ([] : List Nat) = []) ∧
    (lfEmpty.push 5).pop = some (some 5, ⟨lfEmpty.heap, lfEmpty.head, lfEmpty.fresh + 1⟩) :=
  ⟨lfstack_push_pop_lifo.1 Nat lfEmpty [] ChainIs.nil,
   lfstack_push_pop_lifo.2.2 Nat lfEmpty 5 (fun _ _ => rfl)⟩
